import Mathlib

/-!
A verification development for the `terraform-provider-hexagate` monitor
resource (package `provider`).  The Go source is shallowly embedded:

* Decoded JSON values (`interface\x7b\x7d` produced by `encoding/json.Unmarshal`)
  are modelled by the inductive type `JSON`.  A Go `map[string]interface\x7b\x7d`
  is an unordered container; it is represented here by its association list.
  Values produced by the modelled decoder always carry the canonical
  (key-sorted, duplicate-free) representative, mirroring the fact that a Go
  map value has no observable insertion order and that `json.Marshal`
  serializes map keys in sorted order.  JSON numbers are modelled as integers
  (the payloads of this provider are integral; `float64` representation
  issues are outside the model).
* `reflect.DeepEqual` on decoded values is modelled by `deepEqual`
  (element-wise on slices, length plus key-lookup on maps).
* `compareJSONValues`, `ModifyPlan`, the rule-identifier reconciliation loop
  of `Update`, `monitorFromModel`, `read`, and the create/update/delete
  lifecycle methods are each embedded as pure functions below, with the
  terraform-plugin-framework attribute values (`types.String`,
  `types.Int64`, `types.Bool`) modelled as null/unknown/value variants.
-/

/-- A decoded JSON value, as produced by `encoding/json.Unmarshal` into
`interface\x7b\x7d`: `nil`, `bool`, number, `string`, `[]interface\x7b\x7d`,
or `map[string]interface\x7b\x7d` (represented by its association list). -/
inductive JSON where
  | null : JSON
  | bool : Bool → JSON
  | num : Int → JSON
  | str : String → JSON
  | arr : List JSON → JSON
  | obj : List (String × JSON) → JSON
deriving Repr

/-- Lookup of a key in a Go map modelled as an association list
(`stateMap[key]`); with duplicate-free keys this is exactly map indexing. -/
def lookupField : List (String × JSON) → String → Option JSON
  | [], _ => none
  | (k, v) :: rest, key => if k = key then some v else lookupField rest key

mutual
/-- Model of `reflect.DeepEqual` on two decoded JSON values: structural
equality on scalars and slices, order-insensitive key/value equality on
maps. -/
def deepEqual : JSON → JSON → Bool
  | .null, .null => true
  | .bool a, .bool b => a == b
  | .num a, .num b => a == b
  | .str a, .str b => a == b
  | .arr xs, .arr ys => deepEqualItems xs ys
  | .obj xs, .obj ys => xs.length == ys.length && deepEqualFields xs ys
  | _, _ => false

/-- `reflect.DeepEqual` on slices: equal length and element-wise equal. -/
def deepEqualItems : List JSON → List JSON → Bool
  | [], [] => true
  | x :: xs, y :: ys => deepEqual x y && deepEqualItems xs ys
  | _, _ => false

/-- `reflect.DeepEqual` on maps, one side: every key/value pair of the first
map is found (by key lookup) in the second with a deep-equal value. -/
def deepEqualFields : List (String × JSON) → List (String × JSON) → Bool
  | [], _ => true
  | (k, v) :: rest, ys =>
    match lookupField ys k with
    | some w => deepEqual v w && deepEqualFields rest ys
    | none => false
end

mutual
/-- Embedding of `compareJSONValues` (monitor resource source, lines
202-250): returns `true` when `planValue` is logically contained in
`stateValue`; `stateValue` may have additional map keys. -/
def compareJSONValues (planValue stateValue : JSON) : Bool :=
  if deepEqual planValue stateValue then true
  else
    match planValue, stateValue with
    | .obj planMap, .obj stateMap => compareFields planMap stateMap
    | .obj _, _ => false
    | _, .obj _ => false
    | .arr planSlice, .arr stateSlice =>
      planSlice.length == stateSlice.length && compareItems planSlice stateSlice
    | .arr _, _ => false
    | _, .arr _ => false
    | _, _ => false

/-- The map branch of `compareJSONValues`: every key of the plan map must
exist in the state map and the values must compare recursively. -/
def compareFields : List (String × JSON) → List (String × JSON) → Bool
  | [], _ => true
  | (k, v) :: rest, stateMap =>
    match lookupField stateMap k with
    | some w => compareJSONValues v w && compareFields rest stateMap
    | none => false

/-- The slice branch of `compareJSONValues`: element-wise recursive
comparison (called only after the length guard). -/
def compareItems : List JSON → List JSON → Bool
  | p :: ps, s :: ss => compareJSONValues p s && compareItems ps ss
  | _, _ => true
end

/-- Strict lexicographic character-order comparison of strings, the order
`encoding/json.Marshal` sorts map keys by. -/
def strLtChars : List Char → List Char → Bool
  | [], [] => false
  | [], _ :: _ => true
  | _ :: _, [] => false
  | a :: as, b :: bs =>
    if a.toNat < b.toNat then true
    else if b.toNat < a.toNat then false
    else strLtChars as bs

/-- Strict key order used for the canonical map representation. -/
def strLt (s t : String) : Bool := strLtChars s.data t.data

/-- Canonical (key-sorted, overwrite-on-duplicate) insertion into the
association-list representation of a Go `map[string]interface\x7b\x7d`.
Assignment into a Go map keeps one entry per key; the sorted order is the
canonical representative of the unordered map. -/
def mapInsert (k : String) (v : JSON) : List (String × JSON) → List (String × JSON)
  | [] => [(k, v)]
  | (k', v') :: fs =>
    if k = k' then (k, v) :: fs
    else if strLt k k' then (k, v) :: (k', v') :: fs
    else (k', v') :: mapInsert k v fs

/-- String escaping performed by `encoding/json.Marshal`: quote, backslash,
the common control characters, and the HTML-relevant characters. -/
def encodeStringBody : List Char → String
  | [] => ""
  | c :: cs =>
    (if c = '"' then "\\\""
     else if c = '\\' then "\\\\"
     else if c = '\n' then "\\n"
     else if c = '\t' then "\\t"
     else if c = '\r' then "\\r"
     else if c = '<' then "\\u003c"
     else if c = '>' then "\\u003e"
     else if c = '&' then "\\u0026"
     else String.singleton c) ++ encodeStringBody cs

/-- A JSON string literal as emitted by `encoding/json.Marshal`. -/
def encodeString (s : String) : String :=
  "\"" ++ encodeStringBody s.data ++ "\""

mutual
/-- Model of `encoding/json.Marshal` on a decoded value: no extraneous
whitespace, map keys emitted in their canonical sorted order (Go's
`Marshal` serializes map keys sorted; the model keeps maps canonical). -/
def encodeJSON : JSON → String
  | .null => "null"
  | .bool true => "true"
  | .bool false => "false"
  | .num n => toString n
  | .str s => encodeString s
  | .arr xs => "[" ++ encodeItems xs ++ "]"
  | .obj fs => "\x7b" ++ encodeFields fs ++ "\x7d"

/-- Comma-separated serialization of array elements. -/
def encodeItems : List JSON → String
  | [] => ""
  | [x] => encodeJSON x
  | x :: y :: xs => encodeJSON x ++ "," ++ encodeItems (y :: xs)

/-- Comma-separated serialization of object members. -/
def encodeFields : List (String × JSON) → String
  | [] => ""
  | [(k, v)] => encodeString k ++ ":" ++ encodeJSON v
  | (k, v) :: kv :: fs =>
    encodeString k ++ ":" ++ encodeJSON v ++ "," ++ encodeFields (kv :: fs)
end

/-- JSON insignificant whitespace, skipped by the decoder. -/
def skipWs : List Char → List Char
  | c :: cs =>
    if c = ' ' ∨ c = '\n' ∨ c = '\t' ∨ c = '\r' then skipWs cs else c :: cs
  | [] => []

/-- Decode the remainder of a JSON string literal (opening quote already
consumed), handling the single-character escapes. -/
def decodeStringRest : List Char → Option (String × List Char)
  | [] => none
  | '"' :: cs => some ("", cs)
  | '\\' :: c :: cs =>
    (if c = '"' ∨ c = '\\' ∨ c = '/' then some (String.singleton c)
     else if c = 'n' then some "\n"
     else if c = 't' then some "\t"
     else if c = 'r' then some "\r"
     else none).bind fun piece =>
      (decodeStringRest cs).map fun (s, rest) => (piece ++ s, rest)
  | '\\' :: [] => none
  | c :: cs => (decodeStringRest cs).map fun (s, rest) => (String.singleton c ++ s, rest)

/-- Decode the digits of an integer JSON number. -/
def decodeDigits : List Char → Nat → Nat × List Char
  | c :: cs, acc =>
    if c.isDigit then decodeDigits cs (acc * 10 + (c.toNat - '0'.toNat)) else (acc, c :: cs)
  | [], acc => (acc, [])

/-- Decode an (integer) JSON number, with optional leading minus sign. -/
def decodeNum : List Char → Option (JSON × List Char)
  | '-' :: c :: cs =>
    if c.isDigit then
      let (n, rest) := decodeDigits (c :: cs) 0
      some (.num (-(n : Int)), rest)
    else none
  | c :: cs =>
    if c.isDigit then
      let (n, rest) := decodeDigits (c :: cs) 0
      some (.num (n : Int), rest)
    else none
  | [] => none

mutual
/-- Fuel-indexed decoder for a JSON value, modelling
`encoding/json.Unmarshal` into `interface\x7b\x7d` on the integral JSON
fragment this provider exchanges.  Object members are accumulated with
`mapInsert`, so objects carry the canonical representation of the Go map
(later duplicate keys overwrite earlier ones, key order in the text is
forgotten). -/
def decodeVal : Nat → List Char → Option (JSON × List Char)
  | 0, _ => none
  | fuel + 1, cs =>
    match skipWs cs with
    | 'n' :: 'u' :: 'l' :: 'l' :: rest => some (.null, rest)
    | 't' :: 'r' :: 'u' :: 'e' :: rest => some (.bool true, rest)
    | 'f' :: 'a' :: 'l' :: 's' :: 'e' :: rest => some (.bool false, rest)
    | '"' :: rest => (decodeStringRest rest).map fun (s, r) => (.str s, r)
    | '[' :: rest =>
      (match skipWs rest with
       | ']' :: r2 => some (.arr [], r2)
       | cs2 => (decodeArrItems fuel cs2).map fun (xs, r) => (.arr xs, r))
    | '\x7b' :: rest =>
      (match skipWs rest with
       | '\x7d' :: r2 => some (.obj [], r2)
       | cs2 => (decodeObjItems fuel cs2).map fun (fs, r) =>
           (.obj (fs.foldl (fun m kv => mapInsert kv.1 kv.2 m) []), r))
    | cs' => decodeNum cs'

/-- Decode one-or-more comma-separated array elements up to `]`. -/
def decodeArrItems : Nat → List Char → Option (List JSON × List Char)
  | 0, _ => none
  | fuel + 1, cs =>
    (decodeVal fuel cs).bind fun (v, r1) =>
      match skipWs r1 with
      | ',' :: r2 => (decodeArrItems fuel r2).map fun (xs, r3) => (v :: xs, r3)
      | ']' :: r2 => some ([v], r2)
      | _ => none

/-- Decode one-or-more comma-separated `"key": value` members up to the
closing brace, in textual order. -/
def decodeObjItems : Nat → List Char → Option (List (String × JSON) × List Char)
  | 0, _ => none
  | fuel + 1, cs =>
    match skipWs cs with
    | '"' :: rest =>
      (decodeStringRest rest).bind fun (k, r1) =>
        match skipWs r1 with
        | ':' :: r2 =>
          (decodeVal fuel r2).bind fun (v, r3) =>
            match skipWs r3 with
            | ',' :: r4 => (decodeObjItems fuel r4).map fun (fs, r5) => ((k, v) :: fs, r5)
            | '\x7d' :: r4 => some ([(k, v)], r4)
            | _ => none
        | _ => none
    | _ => none
end

/-- Model of `json.Unmarshal(text, &v)` for `v interface\x7b\x7d`: decode one
value and require only whitespace after it. -/
def jsonDecode (s : String) : Option JSON :=
  match decodeVal (4 * (s.length + 1)) s.data with
  | some (v, rest) => if skipWs rest = [] then some v else none
  | none => none

/-- A `types.String` attribute value of the terraform-plugin-framework:
null, unknown, or a known string. -/
inductive TFString where
  | null : TFString
  | unknown : TFString
  | value : String → TFString
deriving Repr, DecidableEq

/-- `types.String.IsNull`. -/
def TFString.isNull : TFString → Bool
  | .null => true
  | _ => false

/-- `types.String.IsUnknown`. -/
def TFString.isUnknown : TFString → Bool
  | .unknown => true
  | _ => false

/-- `types.String.ValueString`: the known string, or `""` for null and
unknown values. -/
def TFString.valueString : TFString → String
  | .value s => s
  | _ => ""

/-- A `types.Int64` attribute value. -/
inductive TFInt where
  | null : TFInt
  | unknown : TFInt
  | value : Int → TFInt
deriving Repr, DecidableEq

/-- `types.Int64.IsNull`. -/
def TFInt.isNull : TFInt → Bool
  | .null => true
  | _ => false

/-- `types.Int64.ValueInt64`: the known value, or `0` for null and unknown
values. -/
def TFInt.valueInt : TFInt → Int
  | .value n => n
  | _ => 0

/-- A `types.Bool` attribute value. -/
inductive TFBool where
  | null : TFBool
  | unknown : TFBool
  | value : Bool → TFBool
deriving Repr, DecidableEq

/-- `types.Bool.ValueBool`: the known value, or `false` otherwise. -/
def TFBool.valueBool : TFBool → Bool
  | .value b => b
  | _ => false

/-- `EntityModel`: one element of the `entities` block. -/
structure EntityModel where
  entityType : TFInt
  params : TFString
deriving Repr, DecidableEq

/-- `ChannelModel`: one element of a rule's `channels` block. -/
structure ChannelModel where
  id : TFInt
  name : TFString
  params : TFString
deriving Repr, DecidableEq

/-- `MonitorRuleModel`: one element of the `monitor_rules` block.  The
`categories` list attribute is carried as its extracted `[]int64`
(`ElementsAs`) form; `channels` as its extracted `[]ChannelModel` form. -/
structure MonitorRuleModel where
  id : TFInt
  name : TFString
  type : TFString
  threshold : TFInt
  notificationPeriod : TFInt
  categories : List Int
  channels : List ChannelModel
deriving Repr, DecidableEq

/-- `MonitorResourceModel`: the resource data model.  The nullable
`entities` and `monitor_rules` list attributes are `Option`-wrapped
(`none` models a null list). -/
structure MonitorResourceModel where
  id : TFString
  name : TFString
  monitorID : TFInt
  description : TFString
  disabled : TFBool
  entities : Option (List EntityModel)
  monitorRules : Option (List MonitorRuleModel)
  params : TFString
  createdBy : TFString
  createdAt : TFString
  updatedAt : TFString
deriving Repr, DecidableEq

/-- Outcome of `ModifyPlan`: the (possibly adjusted) plan, whether the
decode-failure warning was logged, and whether an error diagnostic was
appended.  The only `AddError` calls in `ModifyPlan` concern
framework-level attribute deserialization, which a well-typed
`MonitorResourceModel` input precludes, so the embedding reaches no
error-producing branch. -/
structure ModifyPlanOutcome where
  plan : MonitorResourceModel
  warned : Bool
  errored : Bool
deriving Repr, DecidableEq

/-- Embedding of `MonitorResource.ModifyPlan` (monitor resource source,
lines 104-196).  `stateRaw = none` models a null prior state
(creation). -/
def ModifyPlan (stateRaw : Option MonitorResourceModel)
    (plan : MonitorResourceModel) : ModifyPlanOutcome :=
  match stateRaw with
  | none => ⟨plan, false, false⟩
  | some state =>
    let planParams := plan.params
    let stateParams := state.params
    if planParams.isNull || planParams.isUnknown || stateParams.isNull then
      ⟨plan, false, false⟩
    else
      let planParamsStr := planParams.valueString
      let stateParamsStr := stateParams.valueString
      if planParamsStr = stateParamsStr then ⟨plan, false, false⟩
      else
        match jsonDecode planParamsStr, jsonDecode stateParamsStr with
        | some planData, some stateData =>
          if compareJSONValues planData stateData then
            ⟨{ plan with params := stateParams }, false, false⟩
          else ⟨plan, false, false⟩
        | _, _ => ⟨plan, true, false⟩

theorem deepEqual_imp_compare {a b : JSON} (h : deepEqual a b = true) :
    compareJSONValues a b = true := by
  rw [compareJSONValues.eq_def, h]
  rfl

theorem lookupField_mem {ys : List (String × JSON)} {k : String} {w : JSON}
    (h : lookupField ys k = some w) : (k, w) ∈ ys := by
  induction ys with
  | nil => simp [lookupField] at h
  | cons kv rest ih =>
    obtain ⟨k', v'⟩ := kv
    rw [lookupField] at h
    by_cases hk : k' = k
    · subst hk
      simp at h
      subst h
      exact List.mem_cons_self _ _
    · simp [hk] at h
      exact List.mem_cons_of_mem _ (ih h)

theorem deepEqualFields_iff (xs ys : List (String × JSON)) :
    deepEqualFields xs ys = true ↔
      ∀ kv ∈ xs, ∃ w, lookupField ys kv.1 = some w ∧ deepEqual kv.2 w = true := by
  induction xs with
  | nil => simp [deepEqualFields]
  | cons kv rest ih =>
    obtain ⟨k, v⟩ := kv
    rw [deepEqualFields]
    cases h : lookupField ys k with
    | none =>
      simp only [Bool.false_eq_true, false_iff]
      intro hall
      obtain ⟨w, hw, _⟩ := hall (k, v) (List.mem_cons_self _ _)
      rw [h] at hw
      cases hw
    | some w =>
      rw [Bool.and_eq_true, ih]
      constructor
      · rintro ⟨hvw, hrest⟩ kv hkv
        rcases List.mem_cons.mp hkv with heq | hkv'
        · subst heq
          exact ⟨w, h, hvw⟩
        · exact hrest kv hkv'
      · intro hall
        refine ⟨?_, fun kv hkv => hall kv (List.mem_cons_of_mem _ hkv)⟩
        obtain ⟨w', hw', hvw'⟩ := hall (k, v) (List.mem_cons_self _ _)
        rw [h] at hw'
        cases hw'
        exact hvw'

theorem compareFields_iff (xs ys : List (String × JSON)) :
    compareFields xs ys = true ↔
      ∀ kv ∈ xs, ∃ w, lookupField ys kv.1 = some w ∧ compareJSONValues kv.2 w = true := by
  induction xs with
  | nil => simp [compareFields]
  | cons kv rest ih =>
    obtain ⟨k, v⟩ := kv
    rw [compareFields]
    cases h : lookupField ys k with
    | none =>
      simp only [Bool.false_eq_true, false_iff]
      intro hall
      obtain ⟨w, hw, _⟩ := hall (k, v) (List.mem_cons_self _ _)
      rw [h] at hw
      cases hw
    | some w =>
      rw [Bool.and_eq_true, ih]
      constructor
      · rintro ⟨hvw, hrest⟩ kv hkv
        rcases List.mem_cons.mp hkv with heq | hkv'
        · subst heq
          exact ⟨w, h, hvw⟩
        · exact hrest kv hkv'
      · intro hall
        refine ⟨?_, fun kv hkv => hall kv (List.mem_cons_of_mem _ hkv)⟩
        obtain ⟨w', hw', hvw'⟩ := hall (k, v) (List.mem_cons_self _ _)
        rw [h] at hw'
        cases hw'
        exact hvw'

theorem compare_obj_iff (pm sm : List (String × JSON)) :
    compareJSONValues (.obj pm) (.obj sm) = true ↔
      ∀ kv ∈ pm, ∃ w, lookupField sm kv.1 = some w ∧ compareJSONValues kv.2 w = true := by
  rw [compareJSONValues.eq_def]
  cases h : deepEqual (.obj pm) (.obj sm) with
  | true =>
    simp only [if_pos, true_iff]
    rw [deepEqual] at h
    rw [Bool.and_eq_true, deepEqualFields_iff] at h
    intro kv hkv
    obtain ⟨w, hw, hd⟩ := h.2 kv hkv
    exact ⟨w, hw, deepEqual_imp_compare hd⟩
  | false =>
    simp only [Bool.false_eq_true, if_false]
    exact compareFields_iff pm sm

theorem deepEqualItems_iff (ps ss : List JSON) :
    deepEqualItems ps ss = true ↔
      List.Forall₂ (fun a b => deepEqual a b = true) ps ss := by
  induction ps generalizing ss with
  | nil => cases ss <;> simp [deepEqualItems]
  | cons p ps ih =>
    cases ss with
    | nil => simp [deepEqualItems]
    | cons s ss => simp [deepEqualItems, List.forall₂_cons, ih]

theorem compareItems_iff (ps ss : List JSON) (hlen : ps.length = ss.length) :
    compareItems ps ss = true ↔
      List.Forall₂ (fun a b => compareJSONValues a b = true) ps ss := by
  induction ps generalizing ss with
  | nil =>
    cases ss with
    | nil => simp [compareItems]
    | cons s ss => simp at hlen
  | cons p ps ih =>
    cases ss with
    | nil => simp at hlen
    | cons s ss =>
      simp only [List.length_cons, Nat.succ.injEq] at hlen
      simp [compareItems, List.forall₂_cons, ih ss hlen]

theorem compare_arr_forall2 (ps ss : List JSON) :
    compareJSONValues (.arr ps) (.arr ss) = true ↔
      List.Forall₂ (fun a b => compareJSONValues a b = true) ps ss := by
  rw [compareJSONValues.eq_def]
  cases h : deepEqual (.arr ps) (.arr ss) with
  | true =>
    simp only [if_pos, true_iff]
    rw [deepEqual, deepEqualItems_iff] at h
    exact h.imp fun a b hd => deepEqual_imp_compare hd
  | false =>
    simp only [Bool.false_eq_true, if_false]
    rw [Bool.and_eq_true, beq_iff_eq]
    constructor
    · rintro ⟨hlen, hitems⟩
      exact (compareItems_iff ps ss hlen).mp hitems
    · intro hf
      exact ⟨hf.length_eq, (compareItems_iff ps ss hf.length_eq).mpr hf⟩

theorem compare_arr_iff (ps ss : List JSON) :
    compareJSONValues (.arr ps) (.arr ss) = true ↔
      ps.length = ss.length ∧ ∀ (i : Nat) (h1 : i < ps.length) (h2 : i < ss.length),
        compareJSONValues (ps.get ⟨i, h1⟩) (ss.get ⟨i, h2⟩) = true := by
  rw [compare_arr_forall2]
  exact List.forall₂_iff_get

theorem compare_null_eq (b : JSON) :
    compareJSONValues .null b = deepEqual .null b := by
  rw [compareJSONValues.eq_def]
  cases hd : deepEqual .null b with
  | true => rfl
  | false => cases b <;> rfl

theorem compare_bool_eq (x : Bool) (b : JSON) :
    compareJSONValues (.bool x) b = deepEqual (.bool x) b := by
  rw [compareJSONValues.eq_def]
  cases hd : deepEqual (.bool x) b with
  | true => rfl
  | false => cases b <;> rfl

theorem compare_num_eq (n : Int) (b : JSON) :
    compareJSONValues (.num n) b = deepEqual (.num n) b := by
  rw [compareJSONValues.eq_def]
  cases hd : deepEqual (.num n) b with
  | true => rfl
  | false => cases b <;> rfl

theorem compare_str_eq (s : String) (b : JSON) :
    compareJSONValues (.str s) b = deepEqual (.str s) b := by
  rw [compareJSONValues.eq_def]
  cases hd : deepEqual (.str s) b with
  | true => rfl
  | false => cases b <;> rfl

theorem compare_null_iff (b : JSON) : compareJSONValues .null b = true ↔ b = .null := by
  rw [compare_null_eq]
  cases b <;> simp [deepEqual]

theorem compare_bool_iff (x : Bool) (b : JSON) :
    compareJSONValues (.bool x) b = true ↔ b = .bool x := by
  rw [compare_bool_eq]
  cases b <;> simp [deepEqual]
  exact eq_comm

theorem compare_num_iff (n : Int) (b : JSON) :
    compareJSONValues (.num n) b = true ↔ b = .num n := by
  rw [compare_num_eq]
  cases b <;> simp [deepEqual]
  exact eq_comm

theorem compare_str_iff (s : String) (b : JSON) :
    compareJSONValues (.str s) b = true ↔ b = .str s := by
  rw [compare_str_eq]
  cases b <;> simp [deepEqual]
  exact eq_comm

theorem compare_obj_shape {pm : List (String × JSON)} {b : JSON}
    (h : compareJSONValues (.obj pm) b = true) : ∃ bm, b = .obj bm := by
  cases b with
  | obj bm => exact ⟨bm, rfl⟩
  | null => rw [compareJSONValues.eq_def] at h; simp [deepEqual] at h
  | bool y => rw [compareJSONValues.eq_def] at h; simp [deepEqual] at h
  | num n => rw [compareJSONValues.eq_def] at h; simp [deepEqual] at h
  | str t => rw [compareJSONValues.eq_def] at h; simp [deepEqual] at h
  | arr qs => rw [compareJSONValues.eq_def] at h; simp [deepEqual] at h

theorem compare_arr_shape {ps : List JSON} {b : JSON}
    (h : compareJSONValues (.arr ps) b = true) : ∃ qs, b = .arr qs := by
  cases b with
  | arr qs => exact ⟨qs, rfl⟩
  | null => rw [compareJSONValues.eq_def] at h; simp [deepEqual] at h
  | bool y => rw [compareJSONValues.eq_def] at h; simp [deepEqual] at h
  | num n => rw [compareJSONValues.eq_def] at h; simp [deepEqual] at h
  | str t => rw [compareJSONValues.eq_def] at h; simp [deepEqual] at h
  | obj bm => rw [compareJSONValues.eq_def] at h; simp [deepEqual] at h

theorem compare_trans_aux :
    ∀ (n : Nat) (a b c : JSON), sizeOf a ≤ n →
      compareJSONValues a b = true → compareJSONValues b c = true →
      compareJSONValues a c = true := by
  intro n
  induction n using Nat.strong_induction_on with
  | _ n ih =>
    intro a b c hsize hab hbc
    cases a with
    | null =>
      rw [compare_null_iff] at hab
      subst hab
      exact hbc
    | bool x =>
      rw [compare_bool_iff] at hab
      subst hab
      exact hbc
    | num m =>
      rw [compare_num_iff] at hab
      subst hab
      exact hbc
    | str s =>
      rw [compare_str_iff] at hab
      subst hab
      exact hbc
    | arr ps =>
      obtain ⟨qs, rfl⟩ := compare_arr_shape hab
      obtain ⟨rs, rfl⟩ := compare_arr_shape hbc
      rw [compare_arr_forall2, List.forall₂_iff_get] at hab hbc ⊢
      obtain ⟨hl1, h1⟩ := hab
      obtain ⟨hl2, h2⟩ := hbc
      refine ⟨hl1.trans hl2, fun i hi1 hi3 => ?_⟩
      have hi2 : i < qs.length := hl1 ▸ hi1
      have hlt : sizeOf (ps.get ⟨i, hi1⟩) < n := by
        have hget := List.sizeOf_get ps ⟨i, hi1⟩
        have harr : sizeOf (JSON.arr ps) = 1 + sizeOf ps := by simp
        omega
      exact ih (sizeOf (ps.get ⟨i, hi1⟩)) hlt _ (qs.get ⟨i, hi2⟩) (rs.get ⟨i, hi3⟩)
        le_rfl (h1 i hi1 hi2) (h2 i hi2 hi3)
    | obj pm =>
      obtain ⟨bm, rfl⟩ := compare_obj_shape hab
      obtain ⟨cm, rfl⟩ := compare_obj_shape hbc
      rw [compare_obj_iff] at hab hbc ⊢
      intro kv hkv
      obtain ⟨w, hw, hvw⟩ := hab kv hkv
      obtain ⟨u, hu, hwu⟩ := hbc (kv.1, w) (lookupField_mem hw)
      have hlt : sizeOf kv.2 < n := by
        have hmem := List.sizeOf_lt_of_mem hkv
        have hkv2 : sizeOf kv.2 < sizeOf kv := by
          obtain ⟨k, v⟩ := kv
          simp only [Prod.mk.sizeOf_spec]
          omega
        have hobj : sizeOf (JSON.obj pm) = 1 + sizeOf pm := by simp
        omega
      exact ⟨u, hu, ih (sizeOf kv.2) hlt kv.2 w u le_rfl hvw hwu⟩

theorem compareJSONValues_trans (a b c : JSON)
    (hab : compareJSONValues a b = true) (hbc : compareJSONValues b c = true) :
    compareJSONValues a c = true :=
  compare_trans_aux (sizeOf a) a b c le_rfl hab hbc

/-- C2: for every pair of JSON mapping values, the subset comparison is true
iff every key of the candidate mapping is present in the reference mapping
with recursively comparing value; reference-only keys are ignored. -/
theorem subset_on_mappings (pm sm : List (String × JSON)) :
    compareJSONValues (.obj pm) (.obj sm) = true ↔
      ∀ kv ∈ pm, ∃ w, lookupField sm kv.1 = some w ∧ compareJSONValues kv.2 w = true :=
  compare_obj_iff pm sm

/-- Witness for C2 at the spec's two concrete examples. -/
theorem subset_on_mappings_witness :
    compareJSONValues (.obj [("a", .num 1)]) (.obj [("a", .num 1), ("b", .num 2)]) = true ∧
      compareJSONValues (.obj [("a", .num 1), ("b", .num 2)]) (.obj [("a", .num 1)]) = false := by
  constructor
  · refine (subset_on_mappings _ _).mpr ?_
    intro kv hkv
    rw [List.mem_singleton] at hkv
    subst hkv
    exact ⟨.num 1, rfl, by decide⟩
  · by_contra hcon
    rw [Bool.not_eq_false] at hcon
    obtain ⟨w, hw, -⟩ := (subset_on_mappings _ _).mp hcon ("b", .num 2) (by simp)
    rw [show lookupField [("a", JSON.num 1)] "b" = none from rfl] at hw
    cases hw

/-- C3: for every pair of JSON sequence values, the subset comparison is
true iff the lengths agree and the comparison holds recursively at each
position; reordering and strict prefixes compare false. -/
theorem subset_on_sequences :
    (∀ ps ss : List JSON, (compareJSONValues (.arr ps) (.arr ss) = true ↔
        ps.length = ss.length ∧ ∀ (i : Nat) (h1 : i < ps.length) (h2 : i < ss.length),
          compareJSONValues (ps.get ⟨i, h1⟩) (ss.get ⟨i, h2⟩) = true))
    ∧ compareJSONValues (.arr [.num 1, .num 2]) (.arr [.num 2, .num 1]) = false
    ∧ compareJSONValues (.arr [.num 1, .num 2]) (.arr [.num 1, .num 2, .num 3]) = false :=
  ⟨compare_arr_iff, by decide, by decide⟩

/-- Witness for C3: the positional characterization applied at a concrete
pair of sequences. -/
theorem subset_on_sequences_witness :
    compareJSONValues (.arr [.num 1, .num 2]) (.arr [.num 1, .num 2]) = true :=
  (subset_on_sequences.1 _ _).mpr ⟨rfl, by decide⟩

/-- C7 counterexample: contrary to the claim, there is no triple of
sequences on which chained subset comparisons hold while transitivity
fails; the comparison is transitive on sequences as well. -/
theorem subset_trans_seq_no_failure :
    ¬ ∃ a b c : JSON, (∃ ps, a = .arr ps) ∧ (∃ qs, b = .arr qs) ∧ (∃ rs, c = .arr rs) ∧
      compareJSONValues a b = true ∧ compareJSONValues b c = true ∧
      compareJSONValues a c = false := by
  rintro ⟨a, b, c, -, -, -, hab, hbc, hac⟩
  rw [compareJSONValues_trans a b c hab hbc] at hac
  cases hac

/-- C7 amended: the subset comparison is transitive for all values —
nested mappings with growing key sets included, and sequences as well. -/
theorem subset_trans_all (a b c : JSON)
    (hab : compareJSONValues a b = true) (hbc : compareJSONValues b c = true) :
    compareJSONValues a c = true :=
  compareJSONValues_trans a b c hab hbc

/-- Witness for C7 on a concrete growing chain of nested mappings. -/
theorem subset_trans_all_witness :
    compareJSONValues (.obj [("a", .num 1)])
      (.obj [("a", .num 1), ("b", .num 2), ("c", .num 3)]) = true :=
  subset_trans_all (.obj [("a", .num 1)]) (.obj [("a", .num 1), ("b", .num 2)])
    (.obj [("a", .num 1), ("b", .num 2), ("c", .num 3)]) (by decide) (by decide)

theorem modifyPlan_subset_decision (state plan : MonitorResourceModel) (pd sd : JSON)
    (hpn : plan.params.isNull = false) (hpu : plan.params.isUnknown = false)
    (hsn : state.params.isNull = false)
    (hne : plan.params.valueString ≠ state.params.valueString)
    (hp : jsonDecode plan.params.valueString = some pd)
    (hs : jsonDecode state.params.valueString = some sd) :
    ModifyPlan (some state) plan =
      if compareJSONValues pd sd then ⟨{ plan with params := state.params }, false, false⟩
      else ⟨plan, false, false⟩ := by
  rw [ModifyPlan]
  simp only [hpn, hpu, hsn, Bool.or_self, Bool.or_false, Bool.false_or, if_neg hne, hp, hs]
  rfl

theorem modifyPlan_decode_failure (state plan : MonitorResourceModel)
    (hpn : plan.params.isNull = false) (hpu : plan.params.isUnknown = false)
    (hsn : state.params.isNull = false)
    (hne : plan.params.valueString ≠ state.params.valueString)
    (hfail : jsonDecode plan.params.valueString = none ∨
      jsonDecode state.params.valueString = none) :
    ModifyPlan (some state) plan = ⟨plan, true, false⟩ := by
  rw [ModifyPlan]
  simp only [hpn, hpu, hsn, Bool.or_self, Bool.or_false, Bool.false_or, if_neg hne]
  rcases hfail with hf | hf
  · rw [hf]
    cases jsonDecode state.params.valueString <;> rfl
  · rw [hf]
    cases jsonDecode plan.params.valueString <;> rfl

theorem modifyPlan_frame (stateRaw : Option MonitorResourceModel)
    (plan : MonitorResourceModel) :
    ((ModifyPlan stateRaw plan).plan.id = plan.id ∧
     (ModifyPlan stateRaw plan).plan.name = plan.name ∧
     (ModifyPlan stateRaw plan).plan.monitorID = plan.monitorID ∧
     (ModifyPlan stateRaw plan).plan.description = plan.description ∧
     (ModifyPlan stateRaw plan).plan.disabled = plan.disabled ∧
     (ModifyPlan stateRaw plan).plan.entities = plan.entities ∧
     (ModifyPlan stateRaw plan).plan.monitorRules = plan.monitorRules ∧
     (ModifyPlan stateRaw plan).plan.createdBy = plan.createdBy ∧
     (ModifyPlan stateRaw plan).plan.createdAt = plan.createdAt ∧
     (ModifyPlan stateRaw plan).plan.updatedAt = plan.updatedAt) ∧
    ((ModifyPlan stateRaw plan).plan.params = plan.params ∨
     ∃ st, stateRaw = some st ∧ (ModifyPlan stateRaw plan).plan.params = st.params) := by
  cases stateRaw with
  | none => simp [ModifyPlan]
  | some st =>
    rw [ModifyPlan]
    dsimp only
    split
    · simp
    · split
      · simp
      · split
        · split
          · refine ⟨by simp, Or.inr ⟨st, rfl, by simp⟩⟩
          · simp
        · simp

/-- A concrete, fully-known resource model used by the witnesses. -/
def sampleBase : MonitorResourceModel where
  id := .value "1"
  name := .value "m"
  monitorID := .value 1
  description := .null
  disabled := .value false
  entities := none
  monitorRules := none
  params := .null
  createdBy := .null
  createdAt := .null
  updatedAt := .null

theorem modifyPlan_subset_decision_witness :
    ModifyPlan (some { sampleBase with
        params := .value "\x7b\"type\":4,\"severity\":30,\"computed_flag\":true\x7d" })
      { sampleBase with params := .value "\x7b\"type\":4,\"severity\":30\x7d" } =
      ⟨{ sampleBase with
          params := .value "\x7b\"type\":4,\"severity\":30,\"computed_flag\":true\x7d" },
        false, false⟩ := by
  have h := modifyPlan_subset_decision
    { sampleBase with
        params := .value "\x7b\"type\":4,\"severity\":30,\"computed_flag\":true\x7d" }
    { sampleBase with params := .value "\x7b\"type\":4,\"severity\":30\x7d" }
    (.obj [("severity", .num 30), ("type", .num 4)])
    (.obj [("computed_flag", .bool true), ("severity", .num 30), ("type", .num 4)])
    rfl rfl rfl (by decide) rfl rfl
  rw [h]
  rfl

theorem modifyPlan_decode_failure_witness :
    ModifyPlan (some { sampleBase with params := .value "\x7b\"a\":1\x7d" })
      { sampleBase with params := .value "\x7b" } =
      ⟨{ sampleBase with params := .value "\x7b" }, true, false⟩ :=
  modifyPlan_decode_failure { sampleBase with params := .value "\x7b\"a\":1\x7d" }
    { sampleBase with params := .value "\x7b" }
    rfl rfl rfl (by decide) (Or.inl rfl)

/-- The inner loop of the rule-identifier reconciliation in `Update` (lines
616-623): scan the state's rules for the first whose name matches the
declared rule's name exactly; on a match copy its identifier and stop
(`break`); otherwise leave the declared rule unchanged. -/
def applyFirstMatch (rule : MonitorRuleModel) : List MonitorRuleModel → MonitorRuleModel
  | [] => rule
  | stateRule :: rest =>
    if rule.name.valueString = stateRule.name.valueString then { rule with id := stateRule.id }
    else applyFirstMatch rule rest

/-- The outer loop of the rule-identifier reconciliation in `Update`: every
declared rule is reconciled against the full previous-state list. -/
def reconcileRuleIDs : List MonitorRuleModel → List MonitorRuleModel → List MonitorRuleModel
  | [], _ => []
  | rule :: rest, stateRules => applyFirstMatch rule stateRules :: reconcileRuleIDs rest stateRules

/-- Model of `json.Unmarshal` of a params-like text into a
`map[string]interface\x7b\x7d`: succeeds for a JSON object, leaves the map
nil for JSON `null`, and errors for any other value. -/
def decodeIntoMap (s : String) : Option JSON :=
  match jsonDecode s with
  | some (.obj fs) => some (.obj fs)
  | some .null => some .null
  | _ => none

/-- One element of the outbound `entities` payload of `monitorFromModel`. -/
structure PayloadEntity where
  entityType : Int
  params : JSON
deriving Repr

/-- One element of the outbound `channels` payload: `id` is present exactly
when the model channel's `id` attribute is non-null. -/
structure PayloadChannel where
  name : String
  params : JSON
  id : Option Int
deriving Repr

/-- One element of the outbound `monitor_rules` payload. -/
structure PayloadRule where
  name : String
  type : String
  threshold : Int
  categories : List Int
  channels : List PayloadChannel
  notificationPeriod : Option Int
  id : Option Int
deriving Repr

/-- The outbound monitor payload built by `monitorFromModel` (lines
724-858).  The constant `wallets`, `monitor_tags` and `entities_tags`
members are always empty arrays and are not carried in the model. -/
structure ApiPayload where
  name : String
  disabled : Bool
  id : Option String
  monitorID : Option Int
  description : Option String
  entities : List PayloadEntity
  monitorRules : Option (List PayloadRule)
  params : Option JSON
deriving Repr

/-- Translation of one entity block in `monitorFromModel`: its params text
must decode into a map or the whole translation fails (`return nil`). -/
def entityToPayload (entity : EntityModel) : Option PayloadEntity :=
  match decodeIntoMap entity.params.valueString with
  | some params => some ⟨entity.entityType.valueInt, params⟩
  | none => none

/-- Translation of one channel block in `monitorFromModel`: params must
decode into a map; the `id` member is added only when the model channel's
`id` is non-null, taking the channel's own `ValueInt64`. -/
def channelToPayload (channel : ChannelModel) : Option PayloadChannel :=
  match decodeIntoMap channel.params.valueString with
  | some params =>
    some ⟨channel.name.valueString, params,
      if channel.id.isNull then none else some channel.id.valueInt⟩
  | none => none

/-- Translation of one rule block in `monitorFromModel`: channels are
translated in order; `notification_period` is added when non-null, and the
`id` member only when non-null and non-zero. -/
def ruleToPayload (rule : MonitorRuleModel) : Option PayloadRule :=
  match rule.channels.mapM channelToPayload with
  | some apiChannels =>
    some ⟨rule.name.valueString, rule.type.valueString, rule.threshold.valueInt,
      rule.categories, apiChannels,
      (if rule.notificationPeriod.isNull then none else some rule.notificationPeriod.valueInt),
      (if rule.id.isNull = false ∧ rule.id.valueInt ≠ 0 then some rule.id.valueInt else none)⟩
  | none => none

/-- Embedding of `monitorFromModel`: translates the typed model into the
remote API payload, failing (Go `return nil`) when any params-like text
does not decode into a map.  The monitor-level params text is normalized
by a decode/re-encode round trip in the source; on the decoded value that
round trip is the identity, so the decoded map itself is carried. -/
def monitorFromModel (model : MonitorResourceModel) : Option ApiPayload := do
  let apiEntities ←
    match model.entities with
    | some entities => entities.mapM entityToPayload
    | none => some []
  let apiRules ←
    match model.monitorRules with
    | some rules => (rules.mapM ruleToPayload).map some
    | none => some none
  let params ←
    if model.params.isNull = false ∧ model.params.isUnknown = false then
      (decodeIntoMap model.params.valueString).map some
    else some none
  pure
    { name := model.name.valueString
      disabled := model.disabled.valueBool
      id := if model.id.isNull = false ∧ model.id.valueString ≠ "" then
          some model.id.valueString
        else none
      monitorID := if model.monitorID.isNull then none else some model.monitorID.valueInt
      description := if model.description.isNull then none else some model.description.valueString
      entities := apiEntities
      monitorRules := apiRules
      params := params }

/-- The remote record returned by `GetMonitor`, as consumed by `read`
(already decoded from the wire by the client collaborator). -/
structure ApiEntityRec where
  entityType : Int
  params : JSON
deriving Repr

/-- A channel of a remote rule as consumed by `read`. -/
structure ApiChannelRec where
  id : Int
  name : String
  params : JSON
deriving Repr

/-- A rule of the remote record as consumed by `read`. -/
structure ApiRuleRec where
  id : Int
  name : String
  threshold : Int
  notificationPeriod : Option Int
  categories : List Int
  channels : List ApiChannelRec
deriving Repr

/-- The remote monitor record as consumed by `read` (the client decodes
`params` into a Go map, here its canonical association list). -/
structure ApiMonitor where
  id : Int
  name : String
  monitorID : Int
  description : String
  disabled : Bool
  createdBy : String
  createdAt : String
  updatedAt : String
  entities : Option (List ApiEntityRec)
  monitorRules : Option (List ApiRuleRec)
  params : Option (List (String × JSON))
deriving Repr

/-- `CreateMonitorResponse`. -/
structure CreateMonitorResult where
  id : Int
deriving Repr

/-- The remote API client collaborator (`HexagateClient`), supplied as an
oracle: each call either succeeds or reports a `RemoteError`. -/
structure ApiClient where
  createMonitor : ApiPayload → Except String CreateMonitorResult
  getMonitor : Int → Except String ApiMonitor
  updateMonitor : Int → ApiPayload → Except String Unit
  deleteMonitor : Int → Except String Unit

/-- Embedding of `MonitorResource.read` (lines 422-589): parse the stored
identifier, fetch the remote record, and repopulate the model from it;
the monitor params are stored re-encoded in canonical form (the
marshal/unmarshal/marshal normalization round trip), or null when the
remote record carries none. -/
def readInto (client : ApiClient) (state : MonitorResourceModel) :
    Except String MonitorResourceModel :=
  match state.id.valueString.toInt? with
  | none => .error "could not parse ID"
  | some id =>
    match client.getMonitor id with
    | .error e => .error e
    | .ok monitor =>
      let st := { state with
        id := .value (toString monitor.id)
        name := .value monitor.name
        monitorID := .value monitor.monitorID
        description := .value monitor.description
        disabled := .value monitor.disabled
        createdBy := .value monitor.createdBy
        createdAt := .value monitor.createdAt
        updatedAt := .value monitor.updatedAt }
      let st :=
        match monitor.entities with
        | some es =>
          { st with
            entities := some (es.map fun (e : ApiEntityRec) =>
              ⟨.value e.entityType, .value (encodeJSON e.params)⟩) }
        | none => st
      let st :=
        match monitor.monitorRules with
        | some rules =>
          { st with
            monitorRules := some (rules.map fun (r : ApiRuleRec) =>
            { id := .value r.id
              name := .value r.name
              type := .value "notification"
              threshold := .value r.threshold
              notificationPeriod :=
                match r.notificationPeriod with
                | some p => .value p
                | none => .null
              categories := r.categories
              channels := r.channels.map fun (ch : ApiChannelRec) =>
                ⟨.value ch.id, .value ch.name, .value (encodeJSON ch.params)⟩ }) }
        | none => st
      let st :=
        match monitor.params with
        | some fs => { st with params := .value (encodeJSON (.obj fs)) }
        | none => { st with params := .null }
      .ok st

/-- Result of one lifecycle call: the state written back (none when the
cycle aborted before `State.Set`, leaving the previously persisted state
authoritative) and whether an error diagnostic was appended. -/
structure LifecycleOutcome where
  newState : Option MonitorResourceModel
  errored : Bool
deriving Repr

/-- Embedding of `MonitorResource.Create` (lines 364-402). -/
def createOp (client : ApiClient) (plan : MonitorResourceModel) : LifecycleOutcome :=
  match monitorFromModel plan with
  | none => ⟨none, true⟩
  | some payload =>
    match client.createMonitor payload with
    | .error _ => ⟨none, true⟩
    | .ok result =>
      let plan := { plan with id := .value (toString result.id) }
      match readInto client plan with
      | .error _ => ⟨none, true⟩
      | .ok newPlan => ⟨some newPlan, false⟩

/-- The plan as adjusted by `Update` before submission: the state's
identifier is preserved onto the plan, and when both plan and state carry
rule lists the rule identifiers are reconciled by name. -/
def reconciledPlan (state plan : MonitorResourceModel) : MonitorResourceModel :=
  let plan := { plan with id := state.id }
  match plan.monitorRules, state.monitorRules with
  | some planRules, some stateRules =>
    { plan with monitorRules := some (reconcileRuleIDs planRules stateRules) }
  | _, _ => plan

/-- Embedding of `MonitorResource.Update` (lines 591-691). -/
def updateOp (client : ApiClient) (state plan : MonitorResourceModel) : LifecycleOutcome :=
  let plan := reconciledPlan state plan
  match monitorFromModel plan with
  | none => ⟨none, true⟩
  | some payload =>
    match plan.id.valueString.toInt? with
    | none => ⟨none, true⟩
    | some id =>
      match client.updateMonitor id payload with
      | .error _ => ⟨none, true⟩
      | .ok _ =>
        match readInto client plan with
        | .error _ => ⟨none, true⟩
        | .ok newPlan => ⟨some newPlan, false⟩

/-- Embedding of `MonitorResource.Delete` (lines 693-717). -/
def deleteOp (client : ApiClient) (state : MonitorResourceModel) : LifecycleOutcome :=
  match state.id.valueString.toInt? with
  | none => ⟨none, true⟩
  | some id =>
    match client.deleteMonitor id with
    | .error _ => ⟨none, true⟩
    | .ok _ => ⟨none, false⟩

/-- The canonical JSON normalization used on params texts: decode and
re-encode (`json.Unmarshal` followed by `json.Marshal`). -/
def normalizeParams (s : String) : Option String := (jsonDecode s).map encodeJSON

theorem applyFirstMatch_eq_find (r : MonitorRuleModel) (ps : List MonitorRuleModel) :
    applyFirstMatch r ps =
      match ps.find? (fun sr => r.name.valueString == sr.name.valueString) with
      | some sr => { r with id := sr.id }
      | none => r := by
  induction ps with
  | nil => rfl
  | cons sr rest ih =>
    rw [applyFirstMatch]
    cases hb : r.name.valueString == sr.name.valueString with
    | true =>
      rw [if_pos (beq_iff_eq.mp hb)]
      simp [List.find?, hb]
    | false =>
      rw [if_neg (by simpa using hb), ih]
      simp [List.find?, hb]

theorem reconcileRuleIDs_get (planRules stateRules : List MonitorRuleModel) (i : Nat) :
    (reconcileRuleIDs planRules stateRules).get? i = (planRules.get? i).map fun r =>
      match stateRules.find? (fun sr => r.name.valueString == sr.name.valueString) with
      | some sr => { r with id := sr.id }
      | none => r := by
  induction planRules generalizing i with
  | nil => simp [reconcileRuleIDs]
  | cons r rest ih =>
    cases i with
    | zero => simp [reconcileRuleIDs, List.get?_cons_zero, applyFirstMatch_eq_find]
    | succ n =>
      rw [reconcileRuleIDs, List.get?_cons_succ, List.get?_cons_succ, ih]

/-- A concrete named rule used by witnesses and counterexamples. -/
def namedRule (nm : String) (rid : TFInt) : MonitorRuleModel :=
  ⟨rid, .value nm, .value "notification", .value 30, .null, [], []⟩

/-- C4: identity reconciliation assigns each declared rule the identifier
of the first previous rule with exactly matching name, deterministically
on duplicates, and leaves the rule unchanged when no name matches; the
concrete conjunct pins the duplicate-name tie-break to the first match. -/
theorem rule_id_reconciliation :
    (∀ (planRules stateRules : List MonitorRuleModel) (i : Nat),
      (reconcileRuleIDs planRules stateRules).get? i = (planRules.get? i).map fun r =>
        match stateRules.find? (fun sr => r.name.valueString == sr.name.valueString) with
        | some sr => { r with id := sr.id }
        | none => r)
    ∧ reconcileRuleIDs [namedRule "x" .null]
        [namedRule "x" (.value 1), namedRule "x" (.value 2)] = [namedRule "x" (.value 1)]
    ∧ reconcileRuleIDs [namedRule "x" .null] [namedRule "y" (.value 7)] = [namedRule "x" .null] :=
  ⟨reconcileRuleIDs_get, by decide, by decide⟩

theorem applyFirstMatch_channels (r : MonitorRuleModel) (ps : List MonitorRuleModel) :
    (applyFirstMatch r ps).channels = r.channels := by
  induction ps with
  | nil => rfl
  | cons sr rest ih =>
    rw [applyFirstMatch]
    by_cases h : r.name.valueString = sr.name.valueString
    · rw [if_pos h]
    · rw [if_neg h, ih]

theorem reconcileRuleIDs_channels (planRules stateRules : List MonitorRuleModel) :
    (reconcileRuleIDs planRules stateRules).map (fun r => r.channels) =
      planRules.map (fun r => r.channels) := by
  induction planRules with
  | nil => rfl
  | cons r rest ih =>
    rw [reconcileRuleIDs, List.map_cons, List.map_cons, applyFirstMatch_channels, ih]

/-- The declared channel of the C5 scenario: no identifier of its own. -/
def chanDeclared : ChannelModel := ⟨.null, .value "c", .value "\x7b\x7d"⟩

/-- The previously persisted channel of the C5 scenario: same name,
carrying the remote-assigned identifier 7. -/
def chanInState : ChannelModel := ⟨.value 7, .value "c", .value "\x7b\x7d"⟩

/-- The declared rule of the C5 scenario. -/
def rulePlanC5 : MonitorRuleModel :=
  ⟨.null, .value "r", .value "notification", .value 30, .null, [1], [chanDeclared]⟩

/-- The previously persisted rule of the C5 scenario. -/
def ruleStateC5 : MonitorRuleModel :=
  ⟨.value 5, .value "r", .value "notification", .value 30, .null, [1], [chanInState]⟩

/-- The declared plan of the C5 scenario. -/
def planC5 : MonitorResourceModel := { sampleBase with monitorRules := some [rulePlanC5] }

/-- The previous state of the C5 scenario. -/
def stateC5 : MonitorResourceModel := { sampleBase with monitorRules := some [ruleStateC5] }

/-- C5 counterexample: in the outbound update payload built from the C5
scenario the declared channel carries no identifier at all, although its
name exactly matches a previous-state channel whose identifier is 7 —
channel identifiers are not reconciled from state. -/
theorem channel_ids_not_reconciled :
    (monitorFromModel (reconciledPlan stateC5 planC5)).map
        (fun payload => (payload.monitorRules.getD []).map fun r => r.channels.map fun c => c.id)
      = some [[none]]
    ∧ chanDeclared.name.valueString = chanInState.name.valueString
    ∧ chanInState.id = .value 7 :=
  ⟨rfl, rfl, rfl⟩

/-- C5 amended: the update cycle reconciles only rule identifiers; the
channels of every declared rule pass through identity reconciliation
unchanged, and the outbound channel identifier is the declared channel's
own (present exactly when non-null), never the state channel's. -/
theorem channel_ids_from_declared_plan :
    (∀ state plan : MonitorResourceModel,
      ((reconciledPlan state plan).monitorRules.getD []).map (fun r => r.channels) =
        (plan.monitorRules.getD []).map (fun r => r.channels))
    ∧ (∀ (ch : ChannelModel) (pc : PayloadChannel), channelToPayload ch = some pc →
        pc.id = (if ch.id.isNull then none else some ch.id.valueInt) ∧
        pc.name = ch.name.valueString) := by
  constructor
  · intro state plan
    rw [reconciledPlan]
    cases hp : plan.monitorRules with
    | none => simp [hp]
    | some planRules =>
      cases hs : state.monitorRules with
      | none => simp [hp, hs]
      | some stateRules => simp [hp, hs, reconcileRuleIDs_channels]
  · intro ch pc h
    rw [channelToPayload] at h
    cases hd : decodeIntoMap ch.params.valueString with
    | none => rw [hd] at h; cases h
    | some params =>
      rw [hd] at h
      cases h
      exact ⟨rfl, rfl⟩

/-- Witness for C5: the amended statement applied to the concrete C5
scenario and its declared channel. -/
theorem channel_ids_from_declared_plan_witness :
    (((reconciledPlan stateC5 planC5).monitorRules.getD []).map (fun r => r.channels) =
      (planC5.monitorRules.getD []).map (fun r => r.channels))
    ∧ ((⟨"c", .obj [], none⟩ : PayloadChannel).id =
        (if chanDeclared.id.isNull then none else some chanDeclared.id.valueInt)) :=
  ⟨channel_ids_from_declared_plan.1 stateC5 planC5,
    (channel_ids_from_declared_plan.2 chanDeclared ⟨"c", .obj [], none⟩ rfl).1⟩

/-- C8: normalization (decode then re-encode) is deterministic on the
logical value — two texts decoding to the same ConfigValue normalize to
identical text — and on the spec's example the two key orders and the
whitespace variants all normalize to the same canonical text.  The Go map
forgets key order and duplicate keys while decoding; the model mirrors
this by decoding objects into their canonical representation, so texts
differing only in key order decode to the same value. -/
theorem normalization_deterministic :
    (∀ (t1 t2 : String) (v : JSON), jsonDecode t1 = some v → jsonDecode t2 = some v →
      normalizeParams t1 = normalizeParams t2)
    ∧ normalizeParams "\x7b\"b\":2,\"a\":1\x7d" = some "\x7b\"a\":1,\"b\":2\x7d"
    ∧ normalizeParams "\x7b\"a\":1,\"b\":2\x7d" = some "\x7b\"a\":1,\"b\":2\x7d" := by
  refine ⟨fun t1 t2 v h1 h2 => ?_, rfl, rfl⟩
  rw [normalizeParams, normalizeParams, h1, h2]

/-- Witness for C8: two texts differing in key order and whitespace
normalize identically, via the determinism statement at their common
decoded value. -/
theorem normalization_deterministic_witness :
    normalizeParams "\x7b\"b\":2,\"a\":1\x7d" =
      normalizeParams " \x7b \"a\" : 1 , \"b\" : 2 \x7d " :=
  normalization_deterministic.1 _ _ (.obj [("a", .num 1), ("b", .num 2)]) rfl rfl

/-- C9: when the remote client reports a failure, each of the create,
update and delete cycles aborts with an error diagnostic and writes no
state back — the previously persisted state remains authoritative. -/
theorem remote_failure_aborts_cycle (client : ApiClient)
    (state plan : MonitorResourceModel) (e1 e2 e3 : String)
    (hc : ∀ p, client.createMonitor p = .error e1)
    (hu : ∀ i p, client.updateMonitor i p = .error e2)
    (hd : ∀ i, client.deleteMonitor i = .error e3) :
    createOp client plan = ⟨none, true⟩ ∧
    updateOp client state plan = ⟨none, true⟩ ∧
    deleteOp client state = ⟨none, true⟩ := by
  refine ⟨?_, ?_, ?_⟩
  · rw [createOp]
    cases monitorFromModel plan with
    | none => rfl
    | some payload =>
      dsimp only
      rw [hc payload]
  · rw [updateOp]
    cases monitorFromModel (reconciledPlan state plan) with
    | none => rfl
    | some payload =>
      cases (reconciledPlan state plan).id.valueString.toInt? with
      | none => rfl
      | some i =>
        dsimp only
        rw [hu i payload]
  · rw [deleteOp]
    cases state.id.valueString.toInt? with
    | none => rfl
    | some i =>
      dsimp only
      rw [hd i]

/-- A remote client that fails every call. -/
def failingClient : ApiClient :=
  ⟨fun _ => .error "remote failure", fun _ => .error "remote failure",
    fun _ _ => .error "remote failure", fun _ => .error "remote failure"⟩

/-- Witness for C9 with the always-failing client on concrete models. -/
theorem remote_failure_aborts_cycle_witness :
    createOp failingClient planC5 = ⟨none, true⟩ ∧
    updateOp failingClient stateC5 planC5 = ⟨none, true⟩ ∧
    deleteOp failingClient stateC5 = ⟨none, true⟩ :=
  remote_failure_aborts_cycle failingClient stateC5 planC5
    "remote failure" "remote failure" "remote failure"
    (fun _ => rfl) (fun _ _ => rfl) (fun _ => rfl)
